import Mathlib

/-!
Verification of the CoWorld skeletal-animation core (src/src/bone.cpp,
src/src/animation.cpp, src/src/animation_loader.cpp, src/src/animator.cpp)
against its specification.

Modelling conventions of this shallow embedding:
* C++ `float` arithmetic is modelled exactly over `ℚ`; `fmod` is modelled by
  `fmodQ` (truncated division, the semantics of C `fmod` on finite values).
* `int` values are modelled as `ℤ`.
* `std::vector<T>` is `List T`; an unchecked indexed read `v[i]` is modelled by
  `listGetI`, which returns `none` exactly when the C++ read would be out of
  bounds (undefined behaviour).  Fallible computations therefore live in
  `Option`.
* `std::map<K,V>` is an association list `List (K × V)` with first-match
  lookup; `operator[]`-style insert-or-update modifies the first matching
  entry or appends a fresh one (the keys of a `std::map` are unique, so the
  two coincide on reachable states).
* The glm vector/quaternion/matrix library is external to the repository.
  Rational-exact parts (`glm::mix` on vectors, matrix identity and
  multiplication structure) are modelled concretely; the irrational
  primitives (`glm::slerp`, `glm::normalize` on quaternions, `glm::mat4_cast`)
  are parameters collected in `GlmOps`, and the matrix type itself is a
  parameter `M` with `Mul`/`One` structure (`glm::mat4(1.0f)` is `1`,
  matrix product is `*`).
* Pointers `Animation *` are modelled as `Option ℕ` (null / pointer
  identity); a clip environment `env : ℕ → AnimationData M` resolves them.
-/

namespace CoWorld

/-- Truncation of a rational toward zero, the rounding used by C `fmod`. -/
def truncQ (x : ℚ) : ℤ := Int.tdiv x.num x.den

/-- C `fmod(x, y)` on exact rationals: `x - trunc(x/y) * y`. -/
def fmodQ (x y : ℚ) : ℚ := x - (truncQ (x / y) : ℚ) * y

/-- Unchecked C++ `std::vector` indexed read with an `int` index: defined
(`some`) exactly when the index is in range, `none` models the out-of-bounds
(undefined-behaviour) read. -/
def listGetI {α : Type} (l : List α) (i : ℤ) : Option α :=
  if 0 ≤ i then l[i.toNat]? else none

/-- C++ `std::vector` element write `v[i] = x`; in the animator every such
write is guarded by a bounds check, so the out-of-range case is inert. -/
def cppSet {α : Type} (l : List α) (i : ℤ) (v : α) : List α :=
  if 0 ≤ i then l.set i.toNat v else l

/-- glm::vec3 with exact rational components. -/
structure Vec3 where
  x : ℚ
  y : ℚ
  z : ℚ
deriving DecidableEq

/-- glm::quat with exact rational components. -/
structure Quat where
  w : ℚ
  x : ℚ
  y : ℚ
  z : ℚ
deriving DecidableEq

/-- `glm::mix(a, b, f) = a + f * (b - a)`, componentwise (exact). -/
def mixV (a b : Vec3) (f : ℚ) : Vec3 :=
  ⟨a.x + f * (b.x - a.x), a.y + f * (b.y - a.y), a.z + f * (b.z - a.z)⟩

/-- The glm primitives used by `bone.cpp` that build or transform matrices of
the abstract matrix type `M`.  `translateM v` is `glm::translate(mat4(1), v)`,
`scaleM v` is `glm::scale(mat4(1), v)`; `slerp`/`normalizeQ`/`mat4cast` are
the quaternion primitives (irrational over ℚ, hence kept abstract). -/
structure GlmOps (M : Type) where
  translateM : Vec3 → M
  scaleM : Vec3 → M
  mat4cast : Quat → M
  normalizeQ : Quat → Quat
  slerp : Quat → Quat → ℚ → Quat

/-- struct KeyPosition (bone.hpp). -/
structure KeyPosition where
  position : Vec3
  timeStamp : ℚ
deriving DecidableEq

/-- struct KeyRotation (bone.hpp). -/
structure KeyRotation where
  orientation : Quat
  timeStamp : ℚ
deriving DecidableEq

/-- struct KeyScale (bone.hpp). -/
structure KeyScale where
  scale : Vec3
  timeStamp : ℚ
deriving DecidableEq

/-- The scan inside `Bone::GetPositionIndex` (and its rotation/scale twins):
return the first position `i` (counting from `start`) in `stamps` whose value
is strictly greater than `t`. -/
def findLt (t : ℚ) : List ℚ → ℕ → Option ℕ
  | [], _ => none
  | s :: rest, i => if t < s then some i else findLt t rest (i + 1)

/-- `Bone::GetPositionIndex` / `GetRotationIndex` / `GetScaleIndex` on the
list of timestamps: scan `i` from `0` to `n-2` and return the first `i` with
`t < stamps[i+1]`; if none exists return `n - 1` (note: `n - 1`, not `n - 2`,
exactly as the source). -/
def bracketIndex (stamps : List ℚ) (t : ℚ) : ℤ :=
  match findLt t stamps.tail 0 with
  | some i => (i : ℤ)
  | none => (stamps.length : ℤ) - 1

/-- `Bone::GetPositionIndex` (bone.cpp:179-186). -/
def getPositionIndex (positions : List KeyPosition) (t : ℚ) : ℤ :=
  bracketIndex (positions.map (·.timeStamp)) t

/-- `Bone::GetRotationIndex` (bone.cpp:188-194). -/
def getRotationIndex (rotations : List KeyRotation) (t : ℚ) : ℤ :=
  bracketIndex (rotations.map (·.timeStamp)) t

/-- `Bone::GetScaleIndex` (bone.cpp:196-202). -/
def getScaleIndex (scales : List KeyScale) (t : ℚ) : ℤ :=
  bracketIndex (scales.map (·.timeStamp)) t

/-- `Bone::GetScaleFactor` (bone.cpp:204-207): unclamped blend factor. -/
def getScaleFactor (last next t : ℚ) : ℚ := (t - last) / (next - last)

variable {M : Type}

/-- `Bone::InterpolatePosition` (bone.cpp:209-220).  The reads
`positions[i]`, `positions[j]` are the unchecked vector accesses of the
source; a `none` result marks an out-of-bounds read. -/
def interpolatePosition (ops : GlmOps M) (positions : List KeyPosition)
    (t : ℚ) : Option M :=
  if positions.length = 1 then
    (listGetI positions 0).map (fun k => ops.translateM k.position)
  else do
    let i := getPositionIndex positions t
    let p0 ← listGetI positions i
    let p1 ← listGetI positions (i + 1)
    let f := getScaleFactor p0.timeStamp p1.timeStamp t
    pure (ops.translateM (mixV p0.position p1.position f))

/-- `Bone::InterpolateRotation` (bone.cpp:222-234). -/
def interpolateRotation (ops : GlmOps M) (rotations : List KeyRotation)
    (t : ℚ) : Option M :=
  if rotations.length = 1 then
    (listGetI rotations 0).map (fun k => ops.mat4cast (ops.normalizeQ k.orientation))
  else do
    let i := getRotationIndex rotations t
    let r0 ← listGetI rotations i
    let r1 ← listGetI rotations (i + 1)
    let f := getScaleFactor r0.timeStamp r1.timeStamp t
    pure (ops.mat4cast (ops.normalizeQ (ops.slerp r0.orientation r1.orientation f)))

/-- `Bone::InterpolateScaling` (bone.cpp:236-247). -/
def interpolateScaling (ops : GlmOps M) (scales : List KeyScale)
    (t : ℚ) : Option M :=
  if scales.length = 1 then
    (listGetI scales 0).map (fun k => ops.scaleM k.scale)
  else do
    let i := getScaleIndex scales t
    let s0 ← listGetI scales i
    let s1 ← listGetI scales (i + 1)
    let f := getScaleFactor s0.timeStamp s1.timeStamp t
    pure (ops.scaleM (mixV s0.scale s1.scale f))

/-- One bone of an animation clip (class Bone, bone.hpp).  The C++ fields
`numPositions`/`numRotations`/`numScalings` always equal the lengths of the
corresponding vectors (the constructor pushes exactly that many samples), so
they are represented by the list lengths. -/
structure BoneData where
  name : String
  id : ℤ
  positions : List KeyPosition
  rotations : List KeyRotation
  scales : List KeyScale

/-- `Bone::Update` followed by `GetLocalTransform` (bone.cpp:166-175):
`localTransform = T * R * S`. -/
def boneUpdate [Mul M] (ops : GlmOps M) (b : BoneData) (t : ℚ) : Option M := do
  let tM ← interpolatePosition ops b.positions t
  let rM ← interpolateRotation ops b.rotations t
  let sM ← interpolateScaling ops b.scales t
  pure (tM * rM * sM)

/-- struct BoneInfo (animated_model.hpp): bone ID plus inverse-bind offset. -/
structure BoneInfo (M : Type) where
  id : ℤ
  offset : M

/-- struct AssimpNodeData (animation.hpp).  The C++ field `childrenCount`
always equals `children.size()` (set together in `ReadHierarchyData`), so it
is represented by the list length. -/
inductive NodeTree (M : Type) where
  | node (name : String) (transformation : M) (children : List (NodeTree M))

/-- Node name accessor. -/
def NodeTree.nodeName : NodeTree M → String
  | .node n _ _ => n

/-- First-match lookup in a `std::map` modelled as an association list. -/
def mapFind {K V : Type} [DecidableEq K] (l : List (K × V)) (k : K) : Option V :=
  (l.find? (fun p => decide (p.1 = k))).map (·.2)

/-- `std::map::operator[]` insert-or-assign: update the first entry with the
given key, or append a fresh one. -/
def mapInsert {K V : Type} [DecidableEq K] : List (K × V) → K → V → List (K × V)
  | [], k, v => [(k, v)]
  | (k', v') :: rest, k, v =>
    if k' = k then (k, v) :: rest else (k', v') :: mapInsert rest k v

/-- class Animation (animation.hpp): a loaded clip.  `ticksPerSecond` is an
`int` in the source. -/
structure AnimationData (M : Type) where
  duration : ℚ
  ticksPerSecond : ℤ
  boneCount : ℤ
  name : String
  bones : List BoneData
  rootNode : NodeTree M
  boneInfoMap : List (String × BoneInfo M)

/-- `Animation::FindBone` (animation.cpp:131-140): first bone with the given
name, or null. -/
def findBone (a : AnimationData M) (n : String) : Option BoneData :=
  a.bones.find? (fun b => decide (b.name = n))

/-- enum class AnimationLayer (animator.hpp). -/
inductive AnimationLayer where
  | LOCOMOTION
  | HEAD
  | TAIL
deriving DecidableEq

/-- `Config::Animation::HEAD_BONE_FILTERS` (config.hpp). -/
def headBoneFilters : List String :=
  ["DEF-head", "DEF-skull", "DEF-jaw", "DEF-nose",
   "DEF-ear", "DEF-neck", "DEF-Bone.001", "DEF-Bone.002"]

/-- `Config::Animation::TAIL_BONE_FILTERS` (config.hpp). -/
def tailBoneFilters : List String := ["DEF-tail"]

/-- Character-list prefix test (used to realise substring search). -/
def prefixMatch : List Char → List Char → Bool
  | [], _ => true
  | _ :: _, [] => false
  | a :: as, b :: bs => decide (a = b) && prefixMatch as bs

/-- Character-list substring test. -/
def infixMatch (needle : List Char) : List Char → Bool
  | [] => prefixMatch needle []
  | c :: rest => prefixMatch needle (c :: rest) || infixMatch needle rest

/-- `boneName.find(filter) != std::string::npos`: substring containment. -/
def strContains (hay needle : String) : Bool :=
  infixMatch needle.toList hay.toList

/-- `Animator::IsHeadBone` (animator.cpp:110-117). -/
def isHeadBone (boneName : String) : Bool :=
  headBoneFilters.any (fun f => strContains boneName f)

/-- `Animator::IsTailBone` (animator.cpp:127-134). -/
def isTailBone (boneName : String) : Bool :=
  tailBoneFilters.any (fun f => strContains boneName f)

/-- `Animator::GetBoneLayer` (animator.cpp:305-311): head filters first, then
tail filters, default LOCOMOTION. -/
def getBoneLayer (boneName : String) : AnimationLayer :=
  if isHeadBone boneName then .HEAD
  else if isTailBone boneName then .TAIL
  else .LOCOMOTION

/-- struct Animator::LayerInfo (animator.hpp:105-110), with its C++ default
member initializers. -/
structure LayerInfo where
  animation : Option ℕ := none
  currentTime : ℚ := 0
  active : Bool := false
  looping : Bool := true

/-- Read access `this->layers[layer]`.  (The C++ `operator[]` would
default-insert a missing key; in the animator the read-only uses only occur
for keys that are present, so the lookup-with-default is equivalent there.) -/
def getLayerInfo (layers : List (AnimationLayer × LayerInfo))
    (l : AnimationLayer) : LayerInfo :=
  ((layers.find? (fun p => decide (p.1 = l))).map (·.2)).getD {}

/-- Write access `this->layers[layer]` followed by mutation `f` of the entry:
default-insert if missing, then update. -/
def updateLayerEntry :
    List (AnimationLayer × LayerInfo) → AnimationLayer →
    (LayerInfo → LayerInfo) → List (AnimationLayer × LayerInfo)
  | [], l, f => [(l, f {})]
  | (k, i) :: rest, l, f =>
    if k = l then (k, f i) :: rest else (k, i) :: updateLayerEntry rest l f

/-- The Animator's mutable state (animator.hpp:132-139). -/
structure AnimatorState (M : Type) where
  finalBoneMatrices : List M
  boneOverrides : List (ℤ × M)
  layers : List (AnimationLayer × LayerInfo)
  currentAnimation : Option ℕ
  currentTime : ℚ
  deltaTime : ℚ

mutual

/-- `Animator::CalculateBoneTransform` (animator.cpp:195-235): the
primary-layer hierarchy walk.  `anim` is the dereferenced
`this->currentAnimation`, `time` is `this->currentTime`, `overrides` is
`this->boneOverrides`; `mats` threads `this->finalBoneMatrices`. -/
def calcBoneNode [Mul M] (ops : GlmOps M) (anim : AnimationData M) (time : ℚ)
    (overrides : List (ℤ × M)) (node : NodeTree M) (parent : M) (mats : List M) :
    Option (List M) :=
  match node with
  | .node nm tr children => do
    let nt0 ← match findBone anim nm with
      | some b => boneUpdate ops b time
      | none => some tr
    let it := mapFind anim.boneInfoMap nm
    let nt1 := match it with
      | some info =>
        if 0 ≤ info.id ∧ info.id < (mats.length : ℤ) then
          match mapFind overrides info.id with
          | some ov => ov * nt0
          | none => nt0
        else nt0
      | none => nt0
    let global := parent * nt1
    let mats1 := match it with
      | some info =>
        if 0 ≤ info.id ∧ info.id < (mats.length : ℤ) then
          cppSet mats info.id (global * info.offset)
        else mats
      | none => mats
    calcBoneList ops anim time overrides children global mats1
termination_by structural node

/-- The child-recursion loop of `Animator::CalculateBoneTransform`
(animator.cpp:232-234). -/
def calcBoneList [Mul M] (ops : GlmOps M) (anim : AnimationData M) (time : ℚ)
    (overrides : List (ℤ × M)) (nodes : List (NodeTree M)) (parent : M)
    (mats : List M) : Option (List M) :=
  match nodes with
  | [] => some mats
  | c :: cs => do
    let mats' ← calcBoneNode ops anim time overrides c parent mats
    calcBoneList ops anim time overrides cs parent mats'
termination_by structural nodes

end

mutual

/-- `Animator::CalculateLayerBoneTransform` (animator.cpp:248-281): the
secondary-layer walk.  It reads `this->layers[layer]` for clip and time, and
classifies node names before writing; it never consults `boneOverrides`. -/
def calcLayerNode [Mul M] (ops : GlmOps M) (env : ℕ → AnimationData M)
    (layers : List (AnimationLayer × LayerInfo)) (layer : AnimationLayer)
    (node : NodeTree M) (parent : M) (mats : List M) : Option (List M) :=
  match node with
  | .node nm tr children => do
    let info := getLayerInfo layers layer
    let animRef ← info.animation
    let anim := env animRef
    let nt ← match findBone anim nm with
      | some b => boneUpdate ops b info.currentTime
      | none => some tr
    let global := parent * nt
    let it := mapFind anim.boneInfoMap nm
    let mats1 := match it with
      | some bi =>
        if getBoneLayer nm = layer ∧ 0 ≤ bi.id ∧ bi.id < (mats.length : ℤ) then
          cppSet mats bi.id (global * bi.offset)
        else mats
      | none => mats
    calcLayerList ops env layers layer children global mats1
termination_by structural node

/-- The child-recursion loop of `Animator::CalculateLayerBoneTransform`
(animator.cpp:277-280). -/
def calcLayerList [Mul M] (ops : GlmOps M) (env : ℕ → AnimationData M)
    (layers : List (AnimationLayer × LayerInfo)) (layer : AnimationLayer)
    (nodes : List (NodeTree M)) (parent : M) (mats : List M) :
    Option (List M) :=
  match nodes with
  | [] => some mats
  | c :: cs => do
    let mats' ← calcLayerNode ops env layers layer c parent mats
    calcLayerList ops env layers layer cs parent mats'
termination_by structural nodes

end

/-- The per-layer clock update inside `Animator::UpdateAnimation`
(animator.cpp:55-70): advance the layer time; a non-looping layer whose time
reaches the clip duration is deactivated and cleared; a looping layer wraps
by `fmod`. -/
def stepLayerInfo (env : ℕ → AnimationData M) (dt : ℚ) (i : LayerInfo) :
    LayerInfo :=
  match i.animation with
  | some c =>
    if i.active then
      let t' := i.currentTime + ((env c).ticksPerSecond : ℚ) * dt
      if ¬ i.looping ∧ (env c).duration ≤ t' then
        { i with active := false, animation := none, currentTime := 0 }
      else if i.looping then
        { i with currentTime := fmodQ t' (env c).duration }
      else
        { i with currentTime := t' }
    else i
  | none => i

/-- Phases 1-2 of `Animator::UpdateAnimation` (animator.cpp:36-70): store
`deltaTime`, advance and wrap the primary clock (always `fmod`-wrapped when a
primary clip is active), then advance every layer clock.  (The debug frame
counter of lines 46-51 touches no animator state and is omitted.) -/
def advanceTimes (env : ℕ → AnimationData M) (s : AnimatorState M)
    (dt : ℚ) : AnimatorState M :=
  let s0 := { s with deltaTime := dt }
  let s1 := match s0.currentAnimation with
    | some c =>
      let t' := fmodQ (s0.currentTime + ((env c).ticksPerSecond : ℚ) * dt) (env c).duration
      { s0 with currentTime := t' }
    | none => s0
  { s1 with layers := s1.layers.map (fun p => (p.1, stepLayerInfo env dt p.2)) }

/-- Phases 3-4 of `Animator::UpdateAnimation` (animator.cpp:72-80): reset the
output array to identity, then, if a primary clip is active, run the
primary-layer hierarchy walk over it. -/
def primaryPass [Mul M] [One M] (ops : GlmOps M) (env : ℕ → AnimationData M)
    (s : AnimatorState M) : Option (List M) :=
  let reset := List.replicate s.finalBoneMatrices.length (1 : M)
  match s.currentAnimation with
  | none => some reset
  | some c =>
    calcBoneNode ops (env c) s.currentTime s.boneOverrides (env c).rootNode 1 reset

/-- The overwrite loop of `Animator::UpdateAnimation` (animator.cpp:92-97):
for every entry of the layer clip's bone-info map whose name classifies into
`layer` and whose ID is in range, copy the scratch matrix into the output. -/
def overwriteGo (layer : AnimationLayer) (layerM : List M) :
    List (String × BoneInfo M) → List M → Option (List M)
  | [], final => some final
  | (nm, bi) :: rest, final =>
    if getBoneLayer nm = layer ∧ 0 ≤ bi.id ∧ bi.id < (final.length : ℤ) then do
      let v ← listGetI layerM bi.id
      overwriteGo layer layerM rest (cppSet final bi.id v)
    else overwriteGo layer layerM rest final

/-- One iteration of phase 5 of `Animator::UpdateAnimation`
(animator.cpp:83-98): for an active layer, run a separate full hierarchy walk
into a fresh identity scratch array, then overwrite the classified bone IDs. -/
def applyOneLayer [Mul M] [One M] (ops : GlmOps M) (env : ℕ → AnimationData M)
    (layers : List (AnimationLayer × LayerInfo)) (layer : AnimationLayer)
    (info : LayerInfo) (final : List M) : Option (List M) :=
  match info.animation with
  | some c =>
    if info.active then do
      let layerM ← calcLayerNode ops env layers layer (env c).rootNode 1
        (List.replicate final.length (1 : M))
      overwriteGo layer layerM (env c).boneInfoMap final
    else some final
  | none => some final

/-- The full phase-5 loop over the layer map (animator.cpp:83-99). -/
def applyLayersGo [Mul M] [One M] (ops : GlmOps M) (env : ℕ → AnimationData M)
    (layers : List (AnimationLayer × LayerInfo)) :
    List (AnimationLayer × LayerInfo) → List M → Option (List M)
  | [], final => some final
  | (l, i) :: rest, final => do
    let final' ← applyOneLayer ops env layers l i final
    applyLayersGo ops env layers rest final'

/-- `Animator::UpdateAnimation` (animator.cpp:36-100), composed from its
phases in source order. -/
def updateAnimation [Mul M] [One M] (ops : GlmOps M)
    (env : ℕ → AnimationData M) (s : AnimatorState M) (dt : ℚ) :
    Option (AnimatorState M) := do
  let s1 := advanceTimes env s dt
  let f ← primaryPass ops env s1
  let f2 ← applyLayersGo ops env s1.layers s1.layers f
  pure { s1 with finalBoneMatrices := f2 }

/-- `std::vector::resize(n, fill)`: truncate or extend with `fill`. -/
def resizeList [One M] (l : List M) (n : ℤ) : List M :=
  if n ≤ (l.length : ℤ) then l.take n.toNat
  else l ++ List.replicate (n.toNat - l.length) (1 : M)

/-- `Animator::PlayAnimation` (animator.cpp:143-154): assign the primary
clip.  Only when the pointer differs from the active one does it reset
`currentTime` and (for a non-null clip) resize the output array. -/
def playAnimation [One M] (env : ℕ → AnimationData M) (s : AnimatorState M)
    (a : Option ℕ) : AnimatorState M :=
  if s.currentAnimation ≠ a then
    let s' := { s with currentAnimation := a, currentTime := 0 }
    match a with
    | some c =>
      { s' with finalBoneMatrices :=
          resizeList s'.finalBoneMatrices (env c).boneCount }
    | none => s'
  else s

/-- `Animator::PlayAnimationOnLayer` two-argument overload
(animator.cpp:162-168): unconditionally assign clip, reset time, set active. -/
def playAnimationOnLayer (s : AnimatorState M) (a : Option ℕ)
    (layer : AnimationLayer) : AnimatorState M :=
  let f := fun i => { i with animation := a, currentTime := 0, active := a.isSome }
  { s with layers := updateLayerEntry s.layers layer f }

/-- `Animator::PlayAnimationOnLayer` three-argument overload
(animator.cpp:319-326): additionally sets the looping flag. -/
def playAnimationOnLayerLoop (s : AnimatorState M) (a : Option ℕ)
    (layer : AnimationLayer) (looping : Bool) : AnimatorState M :=
  let f := fun i =>
    { i with animation := a, currentTime := 0, active := a.isSome, looping := looping }
  { s with layers := updateLayerEntry s.layers layer f }

/-- `Animator::StopLayer` (animator.cpp:174-176). -/
def stopLayer (s : AnimatorState M) (layer : AnimationLayer) : AnimatorState M :=
  playAnimationOnLayer s none layer

/-- `Animator::SetBoneOverride` (animator.cpp:288-290). -/
def setBoneOverride (s : AnimatorState M) (boneID : ℤ) (m : M) :
    AnimatorState M :=
  { s with boneOverrides := mapInsert s.boneOverrides boneID m }

/-- `Animator::ClearBoneOverride` (animator.cpp:296-298). -/
def clearBoneOverride (s : AnimatorState M) (boneID : ℤ) : AnimatorState M :=
  { s with boneOverrides := s.boneOverrides.filter (fun p => decide (p.1 ≠ boneID)) }

/-- One aiNodeAnim channel: one bone's keyframe tracks. -/
structure Channel where
  nodeName : String
  positionKeys : List KeyPosition
  rotationKeys : List KeyRotation
  scalingKeys : List KeyScale

/-- The `Bone` constructor (bone.cpp:139-164): copy the channel's keyframe
arrays. -/
def mkBone (nm : String) (id : ℤ) (ch : Channel) : BoneData :=
  ⟨nm, id, ch.positionKeys, ch.rotationKeys, ch.scalingKeys⟩

/-- One aiAnimation inside a parsed scene. -/
structure SceneAnim where
  name : String
  duration : ℚ
  ticksPerSecond : ℚ
  channels : List Channel

/-- A successfully parsed aiScene (importer result); the loaders receive
`Option (SceneData M)`, `none` being a failed or animation-less parse. -/
structure SceneData (M : Type) where
  animations : List SceneAnim
  rootNode : NodeTree M

/-- The skeletal model's shared bone table (AnimatedModel::boneInfoMap and
AnimatedModel::boneCounter, animated_model.hpp). -/
structure ModelState (M : Type) where
  boneInfoMap : List (String × BoneInfo M)
  boneCounter : ℤ

mutual

/-- `Animation::ReadHierarchyData` (animation.cpp:67-80): structure-
preserving copy of the source node hierarchy. -/
def readHierarchyData (node : NodeTree M) : NodeTree M :=
  match node with
  | .node nm tr cs => .node nm tr (readHierarchyList cs)
termination_by structural node

/-- The child loop of `Animation::ReadHierarchyData`. -/
def readHierarchyList (nodes : List (NodeTree M)) : List (NodeTree M) :=
  match nodes with
  | [] => []
  | c :: cs => readHierarchyData c :: readHierarchyList cs
termination_by structural nodes

end

/-- One iteration of the channel loop in `Animation::ReadMissingBones`
(animation.cpp:101-116): a name not yet in the shared table is inserted with
the next sequential ID and an identity offset; then a `Bone` is built with
the table's ID for that name. -/
def readMissingBonesStep [One M] (acc : ModelState M × List BoneData)
    (ch : Channel) : ModelState M × List BoneData :=
  let m := acc.1
  match mapFind m.boneInfoMap ch.nodeName with
  | none =>
    (⟨mapInsert m.boneInfoMap ch.nodeName ⟨m.boneCounter, 1⟩, m.boneCounter + 1⟩,
     acc.2 ++ [mkBone ch.nodeName m.boneCounter ch])
  | some bi => (m, acc.2 ++ [mkBone ch.nodeName bi.id ch])

/-- `Animation::ReadMissingBones` (animation.cpp:92-121): fold the channel
loop over the model's shared bone table, producing the mutated table and the
clip's bone list.  (The final lines 119-120 snapshot the table into the clip;
`animationCtor` below performs that snapshot.) -/
def readMissingBones [One M] (channels : List Channel) (m : ModelState M) :
    ModelState M × List BoneData :=
  channels.foldl readMissingBonesStep (m, [])

/-- The object produced by the `Animation` constructor (animation.cpp:22-56).
When validation fails the constructor returns early, leaving a partially
constructed object: `valid = false`, empty string/vector/map members, and
`none` for the members a C++ early return leaves indeterminate
(`duration`, `ticksPerSecond`, `boneCount`, `rootNode`). -/
structure CtorAnimation (M : Type) where
  valid : Bool
  name : String
  duration : Option ℚ
  ticksPerSecond : Option ℤ
  boneCount : Option ℤ
  bones : List BoneData
  rootNode : Option (NodeTree M)
  boneInfoMap : List (String × BoneInfo M)

/-- The partially constructed `Animation` left by the early return at
animation.cpp:30-35. -/
def partialAnimation : CtorAnimation M :=
  ⟨false, "", none, none, none, [], none, []⟩

/-- The `Animation` constructor (animation.cpp:22-56).  `scene?` is the
result of `importer.ReadFile` at load time; validation fails (early return,
no exception) when the scene is null, has no animations, or the index is out
of range (the signed index is converted to unsigned for the comparison, so a
negative index also fails).  `ticksPerSecond` is truncated to `int`, with the
configured default 25 substituted for a zero source rate. -/
def animationCtor [One M] (scene? : Option (SceneData M)) (model : ModelState M)
    (idx : ℤ) : CtorAnimation M × ModelState M :=
  match scene? with
  | none => (partialAnimation, model)
  | some scene =>
    if h : 0 < scene.animations.length ∧ 0 ≤ idx ∧
        idx < (scene.animations.length : ℤ) then
      let anim := scene.animations.get ⟨idx.toNat, by omega⟩
      let tps : ℤ := if anim.ticksPerSecond ≠ 0 then truncQ anim.ticksPerSecond else 25
      let root := readHierarchyData scene.rootNode
      let mb := readMissingBones anim.channels model
      (⟨true, anim.name, some anim.duration, some tps, some mb.1.boneCounter,
        mb.2, some root, mb.1.boneInfoMap⟩, mb.1)
    else (partialAnimation, model)

/-- struct AnimationInfo (animation_loader.hpp): catalog metadata. -/
structure AnimationInfo where
  name : String
  index : ℤ
  duration : ℚ
  ticksPerSecond : ℚ

/-- `AnimationLoader::LoadAnimationList` (animation_loader.cpp:34-64): scan
the scene and extract metadata for every animation (default rate 25
substituted for zero, kept as `float` here). -/
def loadAnimationList (scene? : Option (SceneData M)) : List AnimationInfo :=
  match scene? with
  | none => []
  | some scene =>
    if scene.animations.length = 0 then []
    else scene.animations.enum.map (fun p =>
      ⟨p.2.name, (p.1 : ℤ), p.2.duration,
       if p.2.ticksPerSecond ≠ 0 then p.2.ticksPerSecond else 25⟩)

/-- `AnimationLoader::FindAnimationIndex` (animation_loader.cpp:112-118):
first catalog entry with the given name, else `-1`. -/
def findAnimationIndex (catalog : List AnimationInfo) (nm : String) : ℤ :=
  match catalog.find? (fun i => decide (i.name = nm)) with
  | some i => i.index
  | none => -1

/-- `AnimationLoader::LoadAnimation` (animation_loader.cpp:75-93).  `scene?`
is the parse the `Animation` constructor performs at load time.  An unknown
name yields `none` (null).  Otherwise `std::make_unique<Animation>` runs the
constructor, which signals validation failure by early return rather than by
throwing, so the `catch` never fires for such failures and a (possibly
partial) object is always produced. -/
def loadAnimation [One M] (catalog : List AnimationInfo)
    (scene? : Option (SceneData M)) (model : ModelState M) (nm : String) :
    Option (CtorAnimation M) × ModelState M :=
  let idx := findAnimationIndex catalog nm
  if idx = -1 then (none, model)
  else
    let am := animationCtor scene? model idx
    (some am.1, am.2)

/-! ## Auxiliary definitions used only to state properties -/

mutual

/-- All node names occurring in a hierarchy tree (used to state which bone
IDs a hierarchy walk can resolve). -/
def nodeNames (node : NodeTree M) : List String :=
  match node with
  | .node nm _ cs => nm :: nodeNamesList cs

/-- All node names occurring in a forest. -/
def nodeNamesList (nodes : List (NodeTree M)) : List String :=
  match nodes with
  | [] => []
  | c :: cs => nodeNames c ++ nodeNamesList cs

end

/-- The bone IDs assigned by a bone-info table are exactly the dense integer
range `[0, count)` (with a nonnegative counter). -/
def idsDense (map : List (String × BoneInfo M)) (count : ℤ) : Prop :=
  0 ≤ count ∧
  ∀ k : ℤ, (∃ nm bi, mapFind map nm = some bi ∧ bi.id = k) ↔ (0 ≤ k ∧ k < count)

/-! ## Concrete rational instances (used by closed evaluation theorems) -/

/-- A concrete `GlmOps` instance over `ℚ` (stand-in for the external glm
library, used only to evaluate the embedding at closed inputs). -/
def qOps : GlmOps ℚ := ⟨fun _ => 1, fun _ => 1, fun _ => 1, id, fun a _ _ => a⟩

/-- A minimal clip: duration 40 ticks, 25 ticks per second, trivial
hierarchy. -/
def stockClip : AnimationData ℚ :=
  { duration := 40, ticksPerSecond := 25, boneCount := 1, name := "clip",
    bones := [], rootNode := .node "root" 1 [], boneInfoMap := [] }

/-- Environment resolving every clip pointer to `stockClip`. -/
def stockEnv : ℕ → AnimationData ℚ := fun _ => stockClip

/-- An animator state with an active primary clip and nonzero time. -/
def playSt : AnimatorState ℚ :=
  { finalBoneMatrices := [1], boneOverrides := [], layers := [],
    currentAnimation := some 0, currentTime := 7, deltaTime := 0 }

/-- The E2E scenario B start state: primary clip active, time 0. -/
def e2eSt : AnimatorState ℚ :=
  { finalBoneMatrices := [], boneOverrides := [], layers := [],
    currentAnimation := some 0, currentTime := 0, deltaTime := 0 }

/-- A keyframe channel for the bone "DEF-head" (one sample per track). -/
def chHead : Channel :=
  ⟨"DEF-head", [⟨⟨0, 0, 0⟩, 0⟩], [⟨⟨1, 0, 0, 0⟩, 0⟩], [⟨⟨1, 1, 1⟩, 0⟩]⟩

/-- A keyframe channel for a bone "DEF-spine" not yet in any table. -/
def chSpine : Channel := ⟨"DEF-spine", [], [], []⟩

/-- A model state already containing "DEF-head" with ID 0. -/
def m0 : ModelState ℚ := ⟨[("DEF-head", ⟨0, 1⟩)], 1⟩

/-- An empty model state. -/
def mEmpty : ModelState ℚ := ⟨[], 0⟩

/-- A one-animation scene whose only channel drives "DEF-head". -/
def sceneH : SceneData ℚ := ⟨[⟨"A", 10, 25, [chHead]⟩], .node "root" 1 []⟩

/-- A clip driving one head bone ("DEF-head", ID 0). -/
def headClip : AnimationData ℚ :=
  { duration := 10, ticksPerSecond := 25, boneCount := 1, name := "head",
    bones := [], rootNode := .node "r" 1 [], boneInfoMap := [("DEF-head", ⟨0, 1⟩)] }

/-- Environment mapping clip 1 to the head clip and the rest to `stockClip`. -/
def layerEnv : ℕ → AnimationData ℚ := fun n => if n = 1 then headClip else stockClip

/-- A bone "b0" with single-sample tracks. -/
def b0Bone : BoneData :=
  ⟨"b0", 0, [⟨⟨0, 0, 0⟩, 0⟩], [⟨⟨1, 0, 0, 0⟩, 0⟩], [⟨⟨1, 1, 1⟩, 0⟩]⟩

/-- A clip animating "b0" (ID 0). -/
def ovAnim : AnimationData ℚ :=
  { duration := 10, ticksPerSecond := 25, boneCount := 1, name := "ov",
    bones := [b0Bone], rootNode := .node "b0" 1 [], boneInfoMap := [("b0", ⟨0, 1⟩)] }

/-- A state with no primary clip, one active looping HEAD layer, and a
registered bone override. -/
def ovSt : AnimatorState ℚ :=
  { finalBoneMatrices := [5], boneOverrides := [(0, 7)],
    layers := [(.HEAD, ⟨some 1, 0, true, true⟩)],
    currentAnimation := none, currentTime := 0, deltaTime := 0 }

/-- A state with an active primary clip and one active HEAD layer. -/
def isoSt : AnimatorState ℚ :=
  { finalBoneMatrices := [5], boneOverrides := [],
    layers := [(.HEAD, ⟨some 1, 0, true, true⟩)],
    currentAnimation := some 0, currentTime := 0, deltaTime := 0 }

/-- The state produced by one `UpdateAnimation(1)` tick from `isoSt`. -/
def isoRes : AnimatorState ℚ :=
  { finalBoneMatrices := [1], boneOverrides := [],
    layers := [(.HEAD, ⟨some 1, 5, true, true⟩)],
    currentAnimation := some 0, currentTime := 25, deltaTime := 1 }

/-! ## Helper lemmas -/

theorem length_cppSet {α : Type} (l : List α) (i : ℤ) (v : α) :
    (cppSet l i v).length = l.length := by
  unfold cppSet; split <;> simp

theorem listGetI_cppSet_ne {α : Type} {l : List α} {i j : ℤ} (v : α)
    (h : i ≠ j) : listGetI (cppSet l i v) j = listGetI l j := by
  unfold cppSet listGetI
  by_cases hi : 0 ≤ i <;> by_cases hj : 0 ≤ j <;> simp [hi, hj]
  have : i.toNat ≠ j.toNat := by omega
  simp [List.getElem?_set_ne this]

theorem getLayerInfo_updateLayerEntry (L : List (AnimationLayer × LayerInfo))
    (key : AnimationLayer) (f : LayerInfo → LayerInfo) :
    getLayerInfo (updateLayerEntry L key f) key = f (getLayerInfo L key) := by
  induction L with
  | nil => simp [updateLayerEntry, getLayerInfo, List.find?]
  | cons p rest ih =>
    obtain ⟨k, i⟩ := p
    by_cases hk : k = key
    · subst hk
      simp [updateLayerEntry, getLayerInfo, List.find?]
    · simp only [updateLayerEntry, if_neg hk]
      simpa [getLayerInfo, List.find?, hk] using ih

theorem mapFind_mapInsert_self {K V : Type} [DecidableEq K]
    (l : List (K × V)) (k : K) (v : V) :
    mapFind (mapInsert l k v) k = some v := by
  induction l with
  | nil => simp [mapInsert, mapFind, List.find?]
  | cons p rest ih =>
    obtain ⟨k', v'⟩ := p
    by_cases hk : k' = k
    · subst hk; simp [mapInsert, mapFind, List.find?]
    · simp only [mapInsert, if_neg hk]
      simpa [mapFind, List.find?, hk] using ih

theorem mapFind_mapInsert_ne {K V : Type} [DecidableEq K]
    (l : List (K × V)) {k k' : K} (v : V) (h : k' ≠ k) :
    mapFind (mapInsert l k v) k' = mapFind l k' := by
  induction l with
  | nil => simp [mapInsert, mapFind, List.find?, Ne.symm h]
  | cons p rest ih =>
    obtain ⟨k0, v0⟩ := p
    by_cases hk : k0 = k
    · subst hk
      simp [mapInsert, mapFind, List.find?, h, Ne.symm h]
    · simp only [mapInsert, if_neg hk]
      by_cases hk' : k0 = k'
      · subst hk'; simp [mapFind, List.find?]
      · simpa [mapFind, List.find?, hk, hk', Ne.symm hk'] using ih

/-! ## Claim theorems -/

/-- Claim C9: for a keyframe channel with exactly one sample, interpolation
at any query time `t` — including negative or arbitrarily large `t` — returns
that single sample's value unchanged as the corresponding translation /
rotation / scale transform (the source converts the rotation sample through
`glm::normalize` and `glm::mat4_cast`); the result does not mention `t`. -/
theorem singleSampleInterpolationStable {M : Type} (ops : GlmOps M)
    (kp : KeyPosition) (kr : KeyRotation) (ks : KeyScale) (t : ℚ) :
    interpolatePosition ops [kp] t = some (ops.translateM kp.position) ∧
    interpolateRotation ops [kr] t = some (ops.mat4cast (ops.normalizeQ kr.orientation)) ∧
    interpolateScaling ops [ks] t = some (ops.scaleM ks.scale) := by
  refine ⟨?_, ?_, ?_⟩ <;>
    simp [interpolatePosition, interpolateRotation, interpolateScaling, listGetI]

/-- Claim C1 (refuted by the code): for a two-sample position channel with
timestamps `[0, 10]` and a query time `t = 10` (≥ the last timestamp), the
scan of `Bone::GetPositionIndex` falls through and returns
`numPositions - 1 = 1`, so `InterpolatePosition` reads `positions[2]` — one
past the end of the array (undefined behaviour), not the claimed final pair
`(n-2, n-1) = (0, 1)`; the interpolation is undefined there. -/
theorem bracketPastEndOutOfRange :
    getPositionIndex [⟨⟨0, 0, 0⟩, 0⟩, ⟨⟨1, 2, 3⟩, 10⟩] 10 = 1 ∧
    interpolatePosition qOps [⟨⟨0, 0, 0⟩, 0⟩, ⟨⟨1, 2, 3⟩, 10⟩] 10 = none ∧
    interpolatePosition qOps [⟨⟨0, 0, 0⟩, 0⟩, ⟨⟨1, 2, 3⟩, 10⟩] 5
      = some (qOps.translateM (mixV ⟨0, 0, 0⟩ ⟨1, 2, 3⟩ (1/2))) := by
  refine ⟨by decide, by decide, by decide⟩

/-- Claim C4: assigning the clip that is already the active primary clip is a
no-op (`currentTime` is not reset, twice in a row included); assigning a
different clip resets `currentTime` to 0; by contrast, every
`PlayAnimationOnLayer` call (both overloads) resets the layer's
`currentTime` to 0 and sets its active flag from the nullness of the clip,
even when the same clip is already active on that layer. -/
theorem playAssignmentSemantics {M : Type} [One M] :
    (∀ (env : ℕ → AnimationData M) (s : AnimatorState M) (c : ℕ),
       s.currentAnimation = some c →
       playAnimation env s (some c) = s ∧
       playAnimation env (playAnimation env s (some c)) (some c) = s) ∧
    (∀ (env : ℕ → AnimationData M) (s : AnimatorState M) (a : Option ℕ),
       s.currentAnimation ≠ a → (playAnimation env s a).currentTime = 0) ∧
    (∀ (s : AnimatorState M) (a : Option ℕ) (layer : AnimationLayer),
       getLayerInfo (playAnimationOnLayer s a layer).layers layer
         = { getLayerInfo s.layers layer with
               animation := a, currentTime := 0, active := a.isSome }) ∧
    (∀ (s : AnimatorState M) (a : Option ℕ) (layer : AnimationLayer) (looping : Bool),
       getLayerInfo (playAnimationOnLayerLoop s a layer looping).layers layer
         = { getLayerInfo s.layers layer with
               animation := a, currentTime := 0, active := a.isSome,
               looping := looping }) := by
  refine ⟨?_, ?_, ?_, ?_⟩
  · intro env s c h
    have h1 : playAnimation env s (some c) = s := by
      simp [playAnimation, h]
    exact ⟨h1, by rw [h1, h1]⟩
  · intro env s a h
    cases a <;> simp [playAnimation, h]
  · intro s a layer
    rw [playAnimationOnLayer]
    exact getLayerInfo_updateLayerEntry s.layers layer _
  · intro s a layer looping
    rw [playAnimationOnLayerLoop]
    exact getLayerInfo_updateLayerEntry s.layers layer _

/-- Witness for C4 at concrete inputs. -/
theorem playAssignmentSemanticsWitness :
    playAnimation stockEnv playSt (some 0) = playSt ∧
    (playAnimation stockEnv playSt (some 1)).currentTime = 0 ∧
    getLayerInfo (playAnimationOnLayerLoop playSt (some 2) .HEAD false).layers .HEAD
      = { getLayerInfo playSt.layers .HEAD with
            animation := some 2, currentTime := 0,
            active := (some 2 : Option ℕ).isSome, looping := false } := by
  have h := playAssignmentSemantics (M := ℚ)
  exact ⟨(h.1 stockEnv playSt 0 rfl).1,
         h.2.1 stockEnv playSt (some 1) (by decide),
         h.2.2.2 playSt (some 2) .HEAD false⟩

/-- Claim C10: `PlayAnimation(nullptr)` while a primary clip is active clears
the primary clip reference and resets the primary `currentTime` to 0, but
leaves `finalBoneMatrices` untouched (resizing happens only in the non-null
branch). -/
theorem playNullKeepsMatrixSize {M : Type} [One M]
    (env : ℕ → AnimationData M) (s : AnimatorState M) (c : ℕ)
    (h : s.currentAnimation = some c) :
    (playAnimation env s none).currentAnimation = none ∧
    (playAnimation env s none).currentTime = 0 ∧
    (playAnimation env s none).finalBoneMatrices = s.finalBoneMatrices := by
  have hne : s.currentAnimation ≠ none := by simp [h]
  simp [playAnimation, hne]

/-- Witness for C10 at concrete inputs. -/
theorem playNullKeepsMatrixSizeWitness :
    (playAnimation stockEnv playSt none).currentAnimation = none ∧
    (playAnimation stockEnv playSt none).currentTime = 0 ∧
    (playAnimation stockEnv playSt none).finalBoneMatrices = playSt.finalBoneMatrices :=
  playNullKeepsMatrixSize stockEnv playSt 0 rfl

/-- Claim C5: an active non-looping secondary layer becomes Idle on exactly
the first update tick in which its accumulated `currentTime` reaches or
exceeds the clip duration (active flag cleared, clip reference nulled, time
zeroed; before that it merely accumulates); an active looping layer never
transitions to Idle during an update tick and instead wraps its time by
`fmod` against the duration.  The last conjunct ties the per-layer step to
`UpdateAnimation`'s layer loop. -/
theorem oneShotTermination {M : Type} (env : ℕ → AnimationData M) (dt : ℚ)
    (i : LayerInfo) (c : ℕ) (hact : i.active = true)
    (hanim : i.animation = some c) :
    (i.looping = false →
      ((env c).duration ≤ i.currentTime + ((env c).ticksPerSecond : ℚ) * dt →
        stepLayerInfo env dt i
          = { i with active := false, animation := none, currentTime := 0 }) ∧
      (i.currentTime + ((env c).ticksPerSecond : ℚ) * dt < (env c).duration →
        stepLayerInfo env dt i
          = { i with currentTime := i.currentTime + ((env c).ticksPerSecond : ℚ) * dt })) ∧
    (i.looping = true →
      stepLayerInfo env dt i
        = { i with currentTime :=
              fmodQ (i.currentTime + ((env c).ticksPerSecond : ℚ) * dt) (env c).duration }) ∧
    (∀ s : AnimatorState M,
      (advanceTimes env s dt).layers
        = s.layers.map (fun p => (p.1, stepLayerInfo env dt p.2))) := by
  refine ⟨?_, ?_, ?_⟩
  · intro hloop
    constructor
    · intro hle
      simp [stepLayerInfo, hanim, hact, hloop, hle]
    · intro hlt
      simp [stepLayerInfo, hanim, hact, hloop, not_le.mpr hlt]
  · intro hloop
    simp [stepLayerInfo, hanim, hact, hloop]
  · intro s
    cases h : s.currentAnimation <;> simp [advanceTimes, h]

/-- A non-looping layer info one tick away from expiry. -/
def osInfo : LayerInfo :=
  { animation := some 0, currentTime := 39, active := true, looping := false }

/-- A looping layer info at the same clock. -/
def loopInfo : LayerInfo :=
  { animation := some 0, currentTime := 39, active := true, looping := true }

/-- Witness for C5 at concrete inputs: with `stockClip` (duration 40, 25
ticks/s) and `dt = 1`, the non-looping layer at time 39 expires
(39 + 25 ≥ 40) and the looping layer wraps. -/
theorem oneShotTerminationWitness :
    stepLayerInfo stockEnv 1 osInfo
      = { osInfo with active := false, animation := none, currentTime := 0 } ∧
    stepLayerInfo stockEnv 1 loopInfo = { loopInfo with currentTime := fmodQ (loopInfo.currentTime + ((stockEnv 0).ticksPerSecond : ℚ) * 1) (stockEnv 0).duration } := by
  have h1 := oneShotTermination stockEnv 1 osInfo 0 rfl rfl
  have h2 := oneShotTermination stockEnv 1 loopInfo 0 rfl rfl
  exact ⟨(h1.1 rfl).1 (by norm_num [stockEnv, stockClip, osInfo]),
         h2.2.1 rfl⟩

/-- Claim C8: whenever a primary clip is active, one `UpdateAnimation(dt)`
tick sets the primary `currentTime` to
`fmod(currentTime + ticksPerSecond * dt, duration)` (the primary layer is
always fmod-wrapped, i.e. treated as looping), and the state returned by
`UpdateAnimation` carries exactly that clock; concretely, for a clip with
duration 40 and ticksPerSecond 25, two updates with `dt = 0.8` starting from
`currentTime = 0` yield 20 and then exactly 0. -/
theorem primaryClockWraps {M : Type} [Mul M] [One M] :
    (∀ (env : ℕ → AnimationData M) (s : AnimatorState M) (dt : ℚ) (c : ℕ),
       s.currentAnimation = some c →
       (advanceTimes env s dt).currentTime
         = fmodQ (s.currentTime + ((env c).ticksPerSecond : ℚ) * dt) (env c).duration) ∧
    (∀ (ops : GlmOps M) (env : ℕ → AnimationData M) (s : AnimatorState M)
       (dt : ℚ) (s' : AnimatorState M),
       updateAnimation ops env s dt = some s' →
       s'.currentTime = (advanceTimes env s dt).currentTime) ∧
    (updateAnimation qOps stockEnv e2eSt (4/5)).map (fun s => s.currentTime)
      = some 20 ∧
    ((updateAnimation qOps stockEnv e2eSt (4/5)).bind
        (fun s1 => updateAnimation qOps stockEnv s1 (4/5))).map (fun s => s.currentTime)
      = some 0 := by
  refine ⟨?_, ?_, ?_, ?_⟩
  · intro env s dt c h
    simp [advanceTimes, h]
  · intro ops env s dt s' hs
    rw [updateAnimation] at hs
    rcases hp : primaryPass ops env (advanceTimes env s dt) with _ | f <;>
      rw [hp] at hs
    · simp at hs
    · rw [show ((some f >>= fun f => applyLayersGo ops env (advanceTimes env s dt).layers (advanceTimes env s dt).layers f >>= fun f2 => pure { advanceTimes env s dt with finalBoneMatrices := f2 }) : Option (AnimatorState M)) = (applyLayersGo ops env (advanceTimes env s dt).layers (advanceTimes env s dt).layers f).bind (fun f2 => some { advanceTimes env s dt with finalBoneMatrices := f2 }) from rfl] at hs
      rcases ha : applyLayersGo ops env (advanceTimes env s dt).layers
          (advanceTimes env s dt).layers f with _ | f2 <;> rw [ha] at hs
      · exact absurd hs (by simp)
      · rw [Option.some_bind'] at hs
        cases hs
        rfl
  · with_unfolding_all rfl
  · with_unfolding_all rfl

/-- Witness for C8 at concrete inputs. -/
theorem primaryClockWrapsWitness :
    (advanceTimes stockEnv e2eSt (4/5)).currentTime
      = fmodQ (e2eSt.currentTime + ((stockEnv 0).ticksPerSecond : ℚ) * (4/5))
          (stockEnv 0).duration ∧
    fmodQ (e2eSt.currentTime + ((stockEnv 0).ticksPerSecond : ℚ) * (4/5))
        (stockEnv 0).duration = 20 := by
  refine ⟨(primaryClockWraps (M := ℚ)).1 stockEnv e2eSt (4/5) 0 rfl, ?_⟩
  with_unfolding_all rfl

theorem readMissingBonesStep_preserves {M : Type} [One M]
    {acc : ModelState M × List BoneData} {nm : String} {bi : BoneInfo M}
    (ch : Channel) (h : mapFind acc.1.boneInfoMap nm = some bi) :
    mapFind (readMissingBonesStep acc ch).1.boneInfoMap nm = some bi := by
  cases hF : mapFind acc.1.boneInfoMap ch.nodeName with
  | none =>
    have hne : nm ≠ ch.nodeName := by
      rintro rfl; rw [h] at hF; cases hF
    simp [readMissingBonesStep, hF, mapFind_mapInsert_ne _ _ hne, h]
  | some bi0 => simp [readMissingBonesStep, hF, h]

theorem readMissingBones_preservesAux {M : Type} [One M]
    (channels : List Channel) :
    ∀ (acc : ModelState M × List BoneData) (nm : String) (bi : BoneInfo M),
      mapFind acc.1.boneInfoMap nm = some bi →
      mapFind (channels.foldl readMissingBonesStep acc).1.boneInfoMap nm = some bi := by
  induction channels with
  | nil => intro acc nm bi h; exact h
  | cons ch chs ih =>
    intro acc nm bi h
    exact ih _ nm bi (readMissingBonesStep_preserves ch h)

theorem readMissingBonesStep_dense {M : Type} [One M]
    (acc : ModelState M × List BoneData) (ch : Channel)
    (hd : idsDense acc.1.boneInfoMap acc.1.boneCounter) :
    idsDense (readMissingBonesStep acc ch).1.boneInfoMap
      (readMissingBonesStep acc ch).1.boneCounter := by
  obtain ⟨h0, hd⟩ := hd
  cases hF : mapFind acc.1.boneInfoMap ch.nodeName with
  | some bi0 => simpa [readMissingBonesStep, hF] using ⟨h0, hd⟩
  | none =>
    simp only [readMissingBonesStep, hF]
    refine ⟨by omega, ?_⟩
    intro k
    constructor
    · rintro ⟨nm, bi, hfind, rfl⟩
      by_cases hnm : nm = ch.nodeName
      · subst hnm
        rw [mapFind_mapInsert_self] at hfind
        cases hfind
        refine ⟨h0, ?_⟩
        show acc.1.boneCounter < acc.1.boneCounter + 1
        omega
      · rw [mapFind_mapInsert_ne _ _ hnm] at hfind
        have := (hd bi.id).mp ⟨nm, bi, hfind, rfl⟩
        omega
    · rintro ⟨hk0, hk⟩
      by_cases hkc : k = acc.1.boneCounter
      · exact ⟨ch.nodeName, ⟨acc.1.boneCounter, 1⟩, mapFind_mapInsert_self _ _ _, hkc.symm⟩
      · obtain ⟨nm, bi, hfind, hid⟩ := (hd k).mpr ⟨hk0, by omega⟩
        have hne : nm ≠ ch.nodeName := by
          rintro rfl; rw [hfind] at hF; cases hF
        exact ⟨nm, bi, by rw [mapFind_mapInsert_ne _ _ hne]; exact hfind, hid⟩

theorem readMissingBones_denseAux {M : Type} [One M] (channels : List Channel) :
    ∀ acc : ModelState M × List BoneData,
      idsDense acc.1.boneInfoMap acc.1.boneCounter →
      idsDense (channels.foldl readMissingBonesStep acc).1.boneInfoMap
        (channels.foldl readMissingBonesStep acc).1.boneCounter := by
  induction channels with
  | nil => intro acc h; exact h
  | cons ch chs ih =>
    intro acc h
    exact ih _ (readMissingBonesStep_dense acc ch h)

/-- Claim C6: across a sequence of clip loads against one skeletal model, the
shared bone-info table only grows: an existing name keeps its exact ID and
offset; a fresh name is inserted with the next sequential ID
(`boneCounter`) and an identity offset, incrementing the counter; the
density invariant "assigned IDs are exactly `[0, boneCounter)`" is preserved
by every load; and a name present in an earlier clip's snapshot appears with
the identical `BoneInfo` (in particular the same integer ID) in every later
clip's snapshot. -/
theorem boneTableMonotoneDense {M : Type} [One M] :
    (∀ (channels : List Channel) (m : ModelState M) (nm : String) (bi : BoneInfo M),
       mapFind m.boneInfoMap nm = some bi →
       mapFind (readMissingBones channels m).1.boneInfoMap nm = some bi) ∧
    (∀ (m : ModelState M) (bs : List BoneData) (ch : Channel),
       mapFind m.boneInfoMap ch.nodeName = none →
       (readMissingBonesStep (m, bs) ch).1.boneInfoMap
         = mapInsert m.boneInfoMap ch.nodeName ⟨m.boneCounter, 1⟩ ∧
       (readMissingBonesStep (m, bs) ch).1.boneCounter = m.boneCounter + 1) ∧
    (∀ (channels : List Channel) (m : ModelState M),
       idsDense m.boneInfoMap m.boneCounter →
       idsDense (readMissingBones channels m).1.boneInfoMap
         (readMissingBones channels m).1.boneCounter) ∧
    (∀ (sceneA sceneB : SceneData M) (m : ModelState M) (iA iB : ℤ)
       (nm : String) (bi : BoneInfo M),
       (animationCtor (some sceneB) (animationCtor (some sceneA) m iA).2 iB).1.valid = true →
       mapFind (animationCtor (some sceneA) m iA).1.boneInfoMap nm = some bi →
       mapFind (animationCtor (some sceneB) (animationCtor (some sceneA) m iA).2 iB).1.boneInfoMap nm = some bi) := by
  refine ⟨?_, ?_, ?_, ?_⟩
  · intro channels m nm bi h
    exact readMissingBones_preservesAux channels (m, []) nm bi h
  · intro m bs ch h
    constructor <;> simp [readMissingBonesStep, h]
  · intro channels m h
    exact readMissingBones_denseAux channels (m, []) h
  · intro sceneA sceneB m iA iB nm bi hvalid hfind
    have hsnap : mapFind (animationCtor (some sceneA) m iA).2.boneInfoMap nm = some bi := by
      by_cases hA : 0 < sceneA.animations.length ∧ 0 ≤ iA ∧ iA < (sceneA.animations.length : ℤ)
      · simp only [animationCtor, dif_pos hA] at hfind ⊢
        exact hfind
      · simp only [animationCtor, dif_neg hA, partialAnimation] at hfind
        simp [mapFind] at hfind
    by_cases hB : 0 < sceneB.animations.length ∧ 0 ≤ iB ∧ iB < (sceneB.animations.length : ℤ)
    · simp only [animationCtor, dif_pos hB]
      exact readMissingBones_preservesAux _ _ nm bi hsnap
    · simp only [animationCtor, dif_neg hB, partialAnimation] at hvalid
      cases hvalid

/-- Witness for C6 at concrete inputs. -/
theorem boneTableMonotoneDenseWitness :
    mapFind (readMissingBones [chSpine] m0).1.boneInfoMap "DEF-head" = some ⟨0, 1⟩ ∧
    (readMissingBonesStep (m0, []) chSpine).1.boneInfoMap
      = mapInsert m0.boneInfoMap "DEF-spine" ⟨m0.boneCounter, 1⟩ ∧
    idsDense (readMissingBones [chHead] mEmpty).1.boneInfoMap
      (readMissingBones [chHead] mEmpty).1.boneCounter ∧
    mapFind (animationCtor (some sceneH) (animationCtor (some sceneH) mEmpty 0).2 0).1.boneInfoMap "DEF-head" = some ⟨0, 1⟩ := by
  have h := boneTableMonotoneDense (M := ℚ)
  have hd : idsDense mEmpty.boneInfoMap mEmpty.boneCounter := by
    refine ⟨by norm_num [mEmpty], ?_⟩
    intro k
    constructor
    · rintro ⟨nm, bi, hfind, _⟩
      simp [mEmpty, mapFind, List.find?] at hfind
    · intro hk
      exfalso
      simp only [mEmpty] at hk
      omega
  refine ⟨h.1 [chSpine] m0 "DEF-head" ⟨0, 1⟩ (by with_unfolding_all rfl),
          (h.2.1 m0 [] chSpine (by with_unfolding_all rfl)).1,
          h.2.2.1 [chHead] mEmpty hd,
          h.2.2.2 sceneH sceneH mEmpty 0 0 "DEF-head" ⟨0, 1⟩
            (by with_unfolding_all rfl) (by with_unfolding_all rfl)⟩

/-- Claim C2 (refuted by the code): `AnimationLoader::LoadAnimation` returns
null for a name missing from the catalog, but when the underlying
`Animation` load fails (null scene at re-parse time, no animation tracks, or
index out of range) the constructor signals failure by an early `return`
rather than by throwing, so `std::make_unique` still completes and
`LoadAnimation` returns a **non-null pointer to a partially constructed
clip** (`valid = false`, empty bone list, indeterminate duration) instead of
the claimed null/empty result. -/
theorem loadFailureProducesPartialClip :
    (loadAnimation [⟨"clipA", 0, 40, 25⟩] (none : Option (SceneData ℚ)) mEmpty "unknown").1 = none ∧
    (loadAnimation [⟨"clipA", 0, 40, 25⟩] (none : Option (SceneData ℚ)) mEmpty "clipA").1
      = some partialAnimation ∧
    (loadAnimation [⟨"clipA", 5, 40, 25⟩] (some sceneH) mEmpty "clipA").1
      = some partialAnimation ∧
    (partialAnimation : CtorAnimation ℚ).valid = false ∧
    (partialAnimation : CtorAnimation ℚ).bones = [] ∧
    (partialAnimation : CtorAnimation ℚ).duration = none := by
  refine ⟨by with_unfolding_all rfl, by with_unfolding_all rfl,
          by with_unfolding_all rfl, rfl, rfl, rfl⟩

/-- `x >>= f = some b` splits into a value for `x` and a run of `f`. -/
theorem optBind_some {α β : Type} {x : Option α} {f : α → Option β} {b : β}
    (h : (x >>= f) = some b) : ∃ a, x = some a ∧ f a = some b := by
  cases x with
  | none => exact absurd h (by simp)
  | some a => exact ⟨a, rfl, h⟩

mutual

theorem calcBoneNode_length {M : Type} [Mul M] (ops : GlmOps M)
    (anim : AnimationData M) (time : ℚ) (overrides : List (ℤ × M))
    (node : NodeTree M) (parent : M) (mats mats' : List M)
    (h : calcBoneNode ops anim time overrides node parent mats = some mats') :
    mats'.length = mats.length := by
  match node with
  | .node nm tr children =>
    rw [calcBoneNode] at h
    rcases hfb : findBone anim nm with _ | b <;> simp only [hfb] at h <;>
      obtain ⟨nt0, hx, h⟩ := optBind_some h <;>
      refine Eq.trans (calcBoneList_length ops anim time overrides children _ _ _ h) ?_ <;>
      rcases hit : mapFind anim.boneInfoMap nm with _ | info <;> simp only [hit] <;>
      (try split) <;> first | exact length_cppSet _ _ _ | rfl
termination_by structural node

theorem calcBoneList_length {M : Type} [Mul M] (ops : GlmOps M)
    (anim : AnimationData M) (time : ℚ) (overrides : List (ℤ × M))
    (nodes : List (NodeTree M)) (parent : M) (mats mats' : List M)
    (h : calcBoneList ops anim time overrides nodes parent mats = some mats') :
    mats'.length = mats.length := by
  match nodes with
  | [] =>
    rw [calcBoneList] at h
    cases h
    rfl
  | c :: cs =>
    rw [calcBoneList] at h
    obtain ⟨m1, hc, h⟩ := optBind_some h
    rw [calcBoneList_length ops anim time overrides cs _ _ _ h,
        calcBoneNode_length ops anim time overrides c _ _ _ hc]
termination_by structural nodes

end

/-- Congruence under a pointwise-agreeing continuation. -/
theorem optBind_congr {α β : Type} (x : Option α) (f g : α → Option β)
    (h : ∀ a, x = some a → f a = g a) : (x >>= f) = (x >>= g) := by
  cases x with
  | none => rfl
  | some a => exact h a rfl

mutual

theorem calcBoneNode_congr_overrides {M : Type} [Mul M] (ops : GlmOps M)
    (anim : AnimationData M) (time : ℚ) (o1 o2 : List (ℤ × M))
    (node : NodeTree M) (parent : M) (mats : List M)
    (h : ∀ nm, nm ∈ nodeNames node → ∀ bi : BoneInfo M,
       mapFind anim.boneInfoMap nm = some bi →
       0 ≤ bi.id → bi.id < (mats.length : ℤ) →
       mapFind o1 bi.id = mapFind o2 bi.id) :
    calcBoneNode ops anim time o1 node parent mats
      = calcBoneNode ops anim time o2 node parent mats := by
  match node with
  | .node nm tr children =>
    have htail : ∀ nm', nm' ∈ nodeNamesList children → nm' ∈ nodeNames (NodeTree.node nm tr children) := by
      intro nm' hm'
      rw [nodeNames]
      exact List.mem_cons_of_mem _ hm'
    rw [calcBoneNode, calcBoneNode]
    rcases hfb : findBone anim nm with _ | b <;> simp only [hfb] <;>
      refine optBind_congr _ _ _ ?_ <;> intro nt0 hx <;>
      rcases hit : mapFind anim.boneInfoMap nm with _ | info <;> simp only [hit]
    case none.none =>
      exact calcBoneList_congr_overrides ops anim time o1 o2 children _ _
        (fun nm' hm' bi hbi h0 hlt => h nm' (htail nm' hm') bi hbi h0 hlt)
    case none.some =>
      by_cases hr : 0 ≤ info.id ∧ info.id < (mats.length : ℤ)
      · have hov := h nm (by rw [nodeNames]; exact List.mem_cons_self _ _) info hit hr.1 hr.2
        simp only [if_pos hr, hov]
        exact calcBoneList_congr_overrides ops anim time o1 o2 children _ _
          (fun nm' hm' bi hbi h0 hlt => h nm' (htail nm' hm') bi hbi h0
            (by rwa [length_cppSet] at hlt))
      · simp only [if_neg hr]
        exact calcBoneList_congr_overrides ops anim time o1 o2 children _ _
          (fun nm' hm' bi hbi h0 hlt => h nm' (htail nm' hm') bi hbi h0 hlt)
    case some.none =>
      exact calcBoneList_congr_overrides ops anim time o1 o2 children _ _
        (fun nm' hm' bi hbi h0 hlt => h nm' (htail nm' hm') bi hbi h0 hlt)
    case some.some =>
      by_cases hr : 0 ≤ info.id ∧ info.id < (mats.length : ℤ)
      · have hov := h nm (by rw [nodeNames]; exact List.mem_cons_self _ _) info hit hr.1 hr.2
        simp only [if_pos hr, hov]
        exact calcBoneList_congr_overrides ops anim time o1 o2 children _ _
          (fun nm' hm' bi hbi h0 hlt => h nm' (htail nm' hm') bi hbi h0
            (by rwa [length_cppSet] at hlt))
      · simp only [if_neg hr]
        exact calcBoneList_congr_overrides ops anim time o1 o2 children _ _
          (fun nm' hm' bi hbi h0 hlt => h nm' (htail nm' hm') bi hbi h0 hlt)
termination_by structural node

theorem calcBoneList_congr_overrides {M : Type} [Mul M] (ops : GlmOps M)
    (anim : AnimationData M) (time : ℚ) (o1 o2 : List (ℤ × M))
    (nodes : List (NodeTree M)) (parent : M) (mats : List M)
    (h : ∀ nm, nm ∈ nodeNamesList nodes → ∀ bi : BoneInfo M,
       mapFind anim.boneInfoMap nm = some bi →
       0 ≤ bi.id → bi.id < (mats.length : ℤ) →
       mapFind o1 bi.id = mapFind o2 bi.id) :
    calcBoneList ops anim time o1 nodes parent mats
      = calcBoneList ops anim time o2 nodes parent mats := by
  match nodes with
  | [] => rw [calcBoneList, calcBoneList]
  | c :: cs =>
    rw [calcBoneList, calcBoneList]
    have hc := calcBoneNode_congr_overrides ops anim time o1 o2 c parent mats
      (fun nm hm bi hbi h0 hlt => h nm
        (by rw [nodeNamesList]; exact List.mem_append_left _ hm) bi hbi h0 hlt)
    rw [hc]
    refine optBind_congr _ _ _ ?_
    intro m1 hm1
    have hlen := calcBoneNode_length ops anim time o2 c parent mats m1 hm1
    exact calcBoneList_congr_overrides ops anim time o1 o2 cs parent m1
      (fun nm hm bi hbi h0 hlt => h nm
        (by rw [nodeNamesList]; exact List.mem_append_right _ hm) bi hbi h0
        (by rwa [hlen] at hlt))
termination_by structural nodes

end

/-- `some a >>= f` computes. -/
theorem optSomeBind {α β : Type} (a : α) (f : α → Option β) :
    ((some a >>= f) : Option β) = f a := rfl

theorem advanceTimes_layers {M : Type} (env : ℕ → AnimationData M)
    (s : AnimatorState M) (dt : ℚ) :
    (advanceTimes env s dt).layers
      = s.layers.map (fun p => (p.1, stepLayerInfo env dt p.2)) := by
  cases h : s.currentAnimation <;> simp [advanceTimes, h]

/-- Claim C7: (a) during the primary-layer walk, a node resolving to a known
in-range bone ID with a registered override has the override pre-multiplied
onto its animated local transform (`local' = override * local`) before
combination with the parent; (b) the walk's result depends on the override
map only at IDs resolved in range by some node name of the tree — overrides
for unresolved or out-of-range IDs are never consulted; (c) everything after
the primary pass (in particular every secondary-layer walk and overwrite) is
independent of the override map: whenever two states differing only in
`boneOverrides` produce the same primary pass, the whole tick produces the
same final matrices. -/
theorem overrideSemantics {M : Type} [Mul M] [One M] :
    (∀ (ops : GlmOps M) (anim : AnimationData M) (time : ℚ)
       (overrides : List (ℤ × M)) (nm : String) (tr parent : M) (mats : List M)
       (b : BoneData) (lt : M) (info : BoneInfo M) (ov : M),
       findBone anim nm = some b →
       boneUpdate ops b time = some lt →
       mapFind anim.boneInfoMap nm = some info →
       0 ≤ info.id → info.id < (mats.length : ℤ) →
       mapFind overrides info.id = some ov →
       calcBoneNode ops anim time overrides (.node nm tr []) parent mats
         = some (cppSet mats info.id ((parent * (ov * lt)) * info.offset))) ∧
    (∀ (ops : GlmOps M) (anim : AnimationData M) (time : ℚ)
       (o1 o2 : List (ℤ × M)) (node : NodeTree M) (parent : M) (mats : List M),
       (∀ nm, nm ∈ nodeNames node → ∀ bi : BoneInfo M,
          mapFind anim.boneInfoMap nm = some bi →
          0 ≤ bi.id → bi.id < (mats.length : ℤ) →
          mapFind o1 bi.id = mapFind o2 bi.id) →
       calcBoneNode ops anim time o1 node parent mats
         = calcBoneNode ops anim time o2 node parent mats) ∧
    (∀ (ops : GlmOps M) (env : ℕ → AnimationData M) (s1 s2 : AnimatorState M)
       (dt : ℚ) (r1 r2 : AnimatorState M),
       s1.layers = s2.layers →
       primaryPass ops env (advanceTimes env s1 dt)
         = primaryPass ops env (advanceTimes env s2 dt) →
       updateAnimation ops env s1 dt = some r1 →
       updateAnimation ops env s2 dt = some r2 →
       r1.finalBoneMatrices = r2.finalBoneMatrices) := by
  refine ⟨?_, ?_, ?_⟩
  · intro ops anim time overrides nm tr parent mats b lt info ov hfb hbu hinfo h0 hlt hov
    rw [calcBoneNode]
    simp only [hfb, hbu, hinfo, hov, optSomeBind, if_pos (And.intro h0 hlt), calcBoneList]
  · intro ops anim time o1 o2 node parent mats h
    exact calcBoneNode_congr_overrides ops anim time o1 o2 node parent mats h
  · intro ops env s1 s2 dt r1 r2 hl hpp h1 h2
    simp only [updateAnimation] at h1 h2
    obtain ⟨f, hf, h1'⟩ := optBind_some h1
    obtain ⟨f', hf', h2'⟩ := optBind_some h2
    rw [← hpp, hf] at hf'
    injection hf' with hff
    subst hff
    obtain ⟨f2, hg, h1''⟩ := optBind_some h1'
    obtain ⟨f2', hg', h2''⟩ := optBind_some h2'
    have hAl : (advanceTimes env s2 dt).layers = (advanceTimes env s1 dt).layers := by
      rw [advanceTimes_layers, advanceTimes_layers, hl]
    rw [hAl, hg] at hg'
    injection hg' with hgg
    subst hgg
    cases h1''
    cases h2''
    rfl

/-- Witness for C7 at concrete inputs. -/
theorem overrideSemanticsWitness :
    calcBoneNode qOps ovAnim 3 [((0 : ℤ), (2 : ℚ))] (.node "b0" 1 []) 1 [9]
      = some (cppSet [9] 0 ((1 * ((2 : ℚ) * 1)) * 1)) ∧
    calcBoneNode qOps ovAnim 3 [((5 : ℤ), (2 : ℚ))] (.node "b0" 1 []) 1 [9]
      = calcBoneNode qOps ovAnim 3 [] (.node "b0" 1 []) 1 [9] ∧
    (∀ r1 r2 : AnimatorState ℚ,
       updateAnimation qOps layerEnv ovSt 1 = some r1 →
       updateAnimation qOps layerEnv { ovSt with boneOverrides := [(0, 9)] } 1 = some r2 →
       r1.finalBoneMatrices = r2.finalBoneMatrices) := by
  have h := overrideSemantics (M := ℚ)
  refine ⟨?_, ?_, ?_⟩
  · exact h.1 qOps ovAnim 3 [(0, 2)] "b0" 1 1 [9] b0Bone 1 ⟨0, 1⟩ 2
      (by with_unfolding_all rfl) (by with_unfolding_all rfl)
      (by with_unfolding_all rfl) (by norm_num) (by norm_num)
      (by with_unfolding_all rfl)
  · refine h.2.1 qOps ovAnim 3 [(5, 2)] [] (.node "b0" 1 []) 1 [9] ?_
    intro nm hm bi hbi h0b hltb
    have hnm : nm = "b0" := by
      simpa [nodeNames, nodeNamesList] using hm
    subst hnm
    have : bi = (⟨0, 1⟩ : BoneInfo ℚ) := by
      rw [show mapFind ovAnim.boneInfoMap "b0" = some ⟨0, 1⟩ by with_unfolding_all rfl] at hbi
      injection hbi with h'
      exact h'.symm
    subst this
    with_unfolding_all rfl
  · intro r1 r2 h1 h2
    exact h.2.2 qOps layerEnv ovSt { ovSt with boneOverrides := [(0, 9)] } 1 r1 r2
      rfl (by with_unfolding_all rfl) h1 h2

theorem overwriteGo_unchanged {M : Type} (L : AnimationLayer) (layerM : List M) :
    ∀ (map : List (String × BoneInfo M)) (final final' : List M) (id : ℤ),
      overwriteGo L layerM map final = some final' →
      (∀ nm bi, (nm, bi) ∈ map → bi.id = id → getBoneLayer nm ≠ L) →
      listGetI final' id = listGetI final id := by
  intro map
  induction map with
  | nil =>
    intro final final' id h _
    rw [overwriteGo] at h
    cases h
    rfl
  | cons p rest ih =>
    obtain ⟨nm, bi⟩ := p
    intro final final' id h hcl
    rw [overwriteGo] at h
    split at h
    case isTrue hc =>
      obtain ⟨v, hv, h⟩ := optBind_some h
      have hbid : bi.id ≠ id := by
        intro hbid
        exact hcl nm bi (List.mem_cons_self _ _) hbid hc.1
      rw [ih _ _ _ h (fun nm' bi' hm' hid' => hcl nm' bi' (List.mem_cons_of_mem _ hm') hid')]
      exact listGetI_cppSet_ne _ hbid
    case isFalse hc =>
      exact ih _ _ _ h (fun nm' bi' hm' hid' => hcl nm' bi' (List.mem_cons_of_mem _ hm') hid')

theorem overwriteGo_changed {M : Type} (L : AnimationLayer) (layerM : List M) :
    ∀ (map : List (String × BoneInfo M)) (final final' : List M) (id : ℤ),
      overwriteGo L layerM map final = some final' →
      listGetI final' id ≠ listGetI final id →
      ∃ nm bi, (nm, bi) ∈ map ∧ bi.id = id ∧ getBoneLayer nm = L := by
  intro map
  induction map with
  | nil =>
    intro final final' id h hne
    rw [overwriteGo] at h
    cases h
    exact absurd rfl hne
  | cons p rest ih =>
    obtain ⟨nm, bi⟩ := p
    intro final final' id h hne
    rw [overwriteGo] at h
    split at h
    case isTrue hc =>
      obtain ⟨v, hv, h⟩ := optBind_some h
      by_cases hbid : bi.id = id
      · exact ⟨nm, bi, List.mem_cons_self _ _, hbid, hc.1⟩
      · have hset : listGetI (cppSet final bi.id v) id = listGetI final id :=
          listGetI_cppSet_ne _ hbid
        have hne' : listGetI final' id ≠ listGetI (cppSet final bi.id v) id := by
          rw [hset]; exact hne
        obtain ⟨nm', bi', hm', hid', hl'⟩ := ih _ _ _ h hne'
        exact ⟨nm', bi', List.mem_cons_of_mem _ hm', hid', hl'⟩
    case isFalse hc =>
      obtain ⟨nm', bi', hm', hid', hl'⟩ := ih _ _ _ h hne
      exact ⟨nm', bi', List.mem_cons_of_mem _ hm', hid', hl'⟩

/-- Claim C3: on an `UpdateAnimation` tick with an active primary clip and a
single secondary layer `L`, the tick's output agrees with the primary-layer
hierarchy walk `F` of that same tick at every bone ID for which no bone name
of the layer clip's bone-info map carrying that ID classifies into `L`
(layer-isolation: e.g. Locomotion-classified IDs keep their primary values);
conversely, any ID whose final matrix differs from the primary walk's value
is carried by some bone name of the layer clip's map that classifies into
`L`. -/
theorem layerIsolation {M : Type} [Mul M] [One M]
    (ops : GlmOps M) (env : ℕ → AnimationData M) (s : AnimatorState M)
    (dt : ℚ) (p : ℕ) (L : AnimationLayer) (i0 : LayerInfo)
    (s' : AnimatorState M)
    (hp : s.currentAnimation = some p)
    (hl : s.layers = [(L, i0)])
    (hs : updateAnimation ops env s dt = some s') :
    ∃ F, primaryPass ops env (advanceTimes env s dt) = some F ∧
      (∀ id : ℤ,
        (∀ c1 nm bi, (stepLayerInfo env dt i0).animation = some c1 →
           (nm, bi) ∈ (env c1).boneInfoMap → bi.id = id → getBoneLayer nm ≠ L) →
        listGetI s'.finalBoneMatrices id = listGetI F id) ∧
      (∀ id : ℤ, listGetI s'.finalBoneMatrices id ≠ listGetI F id →
        ∃ c1 nm bi, (stepLayerInfo env dt i0).animation = some c1 ∧
          (nm, bi) ∈ (env c1).boneInfoMap ∧ bi.id = id ∧ getBoneLayer nm = L) := by
  simp only [updateAnimation] at hs
  obtain ⟨F, hF, hs'⟩ := optBind_some hs
  obtain ⟨f2, hg, hs''⟩ := optBind_some hs'
  have hAl : (advanceTimes env s dt).layers = [(L, stepLayerInfo env dt i0)] := by
    rw [advanceTimes_layers, hl]
    rfl
  rw [hAl] at hg
  simp only [applyLayersGo] at hg
  obtain ⟨fmid, hone, hg'⟩ := optBind_some hg
  have hff : fmid = f2 := Option.some.inj hg'
  subst hff
  simp only [applyOneLayer] at hone
  have hchar : fmid = F ∨
      (∃ c1 layerM, (stepLayerInfo env dt i0).animation = some c1 ∧
        overwriteGo L layerM (env c1).boneInfoMap F = some fmid) := by
    cases han : (stepLayerInfo env dt i0).animation with
    | none =>
      simp only [han] at hone
      exact Or.inl (Option.some.inj hone).symm
    | some c1 =>
      simp only [han] at hone
      split at hone
      · obtain ⟨layerM, hw, hone'⟩ := optBind_some hone
        exact Or.inr ⟨c1, layerM, rfl, hone'⟩
      · exact Or.inl (Option.some.inj hone).symm
  have hfm : s'.finalBoneMatrices = fmid := by
    rw [← Option.some.inj hs'']
  refine ⟨F, hF, ?_, ?_⟩
  · intro id hcl
    rw [hfm]
    rcases hchar with rfl | ⟨c1, layerM, han, hov⟩
    · rfl
    · exact overwriteGo_unchanged L layerM _ F fmid id hov
        (fun nm bi hm hid => hcl c1 nm bi han hm hid)
  · intro id hne
    rw [hfm] at hne
    rcases hchar with rfl | ⟨c1, layerM, han, hov⟩
    · exact absurd rfl hne
    · obtain ⟨nm, bi, hm, hid, hcls⟩ := overwriteGo_changed L layerM _ F fmid id hov hne
      exact ⟨c1, nm, bi, han, hm, hid, hcls⟩

/-- Witness for C3 at concrete inputs. -/
theorem layerIsolationWitness :
    ∃ F, primaryPass qOps layerEnv (advanceTimes layerEnv isoSt 1) = some F ∧
      (∀ id : ℤ,
        (∀ c1 nm bi, (stepLayerInfo layerEnv 1 ⟨some 1, 0, true, true⟩).animation = some c1 →
           (nm, bi) ∈ (layerEnv c1).boneInfoMap → bi.id = id → getBoneLayer nm ≠ .HEAD) →
        listGetI isoRes.finalBoneMatrices id = listGetI F id) ∧
      (∀ id : ℤ, listGetI isoRes.finalBoneMatrices id ≠ listGetI F id →
        ∃ c1 nm bi, (stepLayerInfo layerEnv 1 ⟨some 1, 0, true, true⟩).animation = some c1 ∧
          (nm, bi) ∈ (layerEnv c1).boneInfoMap ∧ bi.id = id ∧ getBoneLayer nm = .HEAD) :=
  layerIsolation qOps layerEnv isoSt 1 0 .HEAD ⟨some 1, 0, true, true⟩ isoRes
    rfl rfl (by with_unfolding_all rfl)

end CoWorld
